import Mathlib

/-!
Verification of the stock-alert bot's core pipeline (src/bot.py) against its
natural-language specification.

Numeric model: Python floats are modelled as exact rationals (ℚ).  Where a
claim's truth depends on genuine IEEE-754 binary64 rounding (the threshold
boundary claim), a faithful binary64 round-to-nearest-even model over ℚ is
defined separately (`fl`, `pct_change_f64`) and the concrete computation is
evaluated under it.
-/

namespace StockBot

/-- Embedding of `calculate_anchor` (src/bot.py lines 355-367).
`sorted_targets[1:-1]` is `(·.drop 1).dropLast` of the ascending sort. -/
def calculate_anchor (targets : List ℚ) (consensus_fallback : Option ℚ)
    (haircut_rate : ℚ) : ℚ × String :=
  if 3 ≤ targets.length then
    let sorted_targets := targets.insertionSort (· ≤ ·)
    let trimmed := (sorted_targets.drop 1).dropLast
    let trimmed_mean := trimmed.sum / (trimmed.length : ℚ)
    (trimmed_mean * (1 - haircut_rate), "trimmed")
  else
    match consensus_fallback with
    | some c => (c * (1 - haircut_rate), "fallback")
    | none => (0, "none")

/-- The spec's three-case reference algorithm for the anchor, written from the
spec's words: sort ascending, remove the first and last elements, take the
arithmetic mean of the remaining `len(targets) - 2` elements, multiply by
`(1 - haircut_rate)`; otherwise fall back to the consensus times
`(1 - haircut_rate)`; otherwise `(0, "none")`. -/
def anchor_spec (targets : List ℚ) (consensus : Option ℚ)
    (haircut_rate : ℚ) : ℚ × String :=
  if 3 ≤ targets.length then
    let sorted := targets.insertionSort (· ≤ ·)
    let remaining := (sorted.drop 1).dropLast
    (remaining.sum / ((targets.length : ℚ) - 2) * (1 - haircut_rate), "trimmed")
  else
    match consensus with
    | some c => (c * (1 - haircut_rate), "fallback")
    | none => (0, "none")

lemma trimmed_length (targets : List ℚ) :
    (((targets.insertionSort (· ≤ ·)).drop 1).dropLast).length =
      targets.length - 2 := by
  rw [List.length_dropLast, List.length_drop, List.length_insertionSort]
  omega

lemma calculate_anchor_eq_spec (targets : List ℚ) (consensus : Option ℚ)
    (haircut_rate : ℚ) :
    calculate_anchor targets consensus haircut_rate =
      anchor_spec targets consensus haircut_rate := by
  unfold calculate_anchor anchor_spec
  by_cases h3 : 3 ≤ targets.length
  · simp only [h3, if_pos]
    have hlen := trimmed_length targets
    rw [hlen]
    have h2 : ((targets.length - 2 : ℕ) : ℚ) = (targets.length : ℚ) - 2 := by
      have : (2 : ℕ) ≤ targets.length := by omega
      push_cast [Nat.cast_sub this]
      ring
    rw [h2]
  · simp only [h3, if_neg, not_false_iff]

/-! ### IEEE-754 binary64 value semantics

Python's floats are IEEE-754 binary64.  `fl` is round-to-nearest, ties to
even, expressed exactly over ℚ, valid for magnitudes in the normal range
(no overflow and no subnormals, which the prices and percentages in
question never reach).  The per-operation rounding of
`((last_price - previous_close) / previous_close) * 100` (src/bot.py
line 543) is `pct_change_f64`. -/

/-- `2 ^ z` in ℚ for an integer exponent, written without `zpow`. -/
def pow2 (z : ℤ) : ℚ :=
  if 0 ≤ z then ((2 ^ z.toNat : ℕ) : ℚ) else 1 / ((2 ^ (-z).toNat : ℕ) : ℚ)

/-- The binade of a positive rational: the integer `e` with `2^e ≤ q < 2^(e+1)`. -/
def qexp (q : ℚ) : ℤ :=
  let d : ℤ := (Nat.log2 q.num.natAbs : ℤ) - (Nat.log2 q.den : ℤ)
  if q < pow2 d then d - 1 else d

/-- Round a non-negative rational to the nearest integer, ties to even. -/
def roundHalfEven (x : ℚ) : ℤ :=
  let n := ⌊x⌋
  if x - n < 1/2 then n
  else if 1/2 < x - n then n + 1
  else if n % 2 = 0 then n else n + 1

/-- Binary64 rounding of a rational: scale into the 53-bit mantissa range,
round to nearest (ties to even), scale back. -/
def fl (q : ℚ) : ℚ :=
  if q = 0 then 0
  else if 0 < q then
    ((roundHalfEven (q * pow2 (52 - qexp q)) : ℤ) : ℚ) * pow2 (qexp q - 52)
  else
    -(((roundHalfEven (-q * pow2 (52 - qexp (-q))) : ℤ) : ℚ) * pow2 (qexp (-q) - 52))

/-- Binary64 subtraction: exact difference, then one rounding. -/
def f64_sub (a b : ℚ) : ℚ := fl (a - b)

/-- Binary64 division: exact quotient, then one rounding. -/
def f64_div (a b : ℚ) : ℚ := fl (a / b)

/-- Binary64 multiplication: exact product, then one rounding. -/
def f64_mul (a b : ℚ) : ℚ := fl (a * b)

/-- `((last_price - previous_close) / previous_close) * 100` computed in
binary64, operation by operation, as Python evaluates src/bot.py line 543. -/
def pct_change_f64 (previous_close last_price : ℚ) : ℚ :=
  f64_mul (f64_div (f64_sub last_price previous_close) previous_close) 100

lemma log2_eq_of_bounds {n k : ℕ} (h1 : 2 ^ k ≤ n) (h2 : n < 2 ^ (k + 1)) :
    Nat.log2 n = k := by
  have hp : 0 < n := lt_of_lt_of_le (pow_pos (by norm_num) k) h1
  have ha : k ≤ n.log2 := (Nat.le_log2 hp.ne').2 h1
  have hb : n.log2 < k + 1 := (Nat.log2_lt hp.ne').2 h2
  omega

lemma fl_of_pos {q : ℚ} (hq : 0 < q) :
    fl q = ((roundHalfEven (q * pow2 (52 - qexp q)) : ℤ) : ℚ) *
      pow2 (qexp q - 52) := by
  simp only [fl, hq.ne', if_neg, hq, if_pos, ite_false, ite_true]

lemma rhe_down {x : ℚ} {n : ℤ} (h1 : (n : ℚ) ≤ x) (h2 : x - n < 1/2) :
    roundHalfEven x = n := by
  have hfl : ⌊x⌋ = n := by
    rw [Int.floor_eq_iff]
    exact ⟨by exact_mod_cast h1, by linarith⟩
  simp only [roundHalfEven, hfl]
  rw [if_pos h2]

/-! Concrete binary64 evaluations for the threshold boundary: the doubles
nearest 1.90 and 1.89, and each rounding step of the percentage-change
computation starting from `previous_close = 1.0`. -/

lemma qexp_19_10 : qexp (19/10) = 0 := by
  have hnum : ((19 : ℚ) / 10).num.natAbs = 19 := by norm_num
  have hden : ((19 : ℚ) / 10).den = 10 := by norm_num
  have t1 : Nat.log2 19 = 4 := log2_eq_of_bounds (by norm_num) (by norm_num)
  have t2 : Nat.log2 10 = 3 := log2_eq_of_bounds (by norm_num) (by norm_num)
  unfold qexp
  rw [hnum, hden, t1, t2]
  norm_num [pow2, Int.toNat]

lemma fl_190 : fl (19/10) = 4278419646001971 / 2251799813685248 := by
  rw [fl_of_pos (by norm_num), qexp_19_10]
  rw [show ((19:ℚ)/10) * pow2 (52 - 0) = 42784196460019712/5 by
    norm_num [pow2, Int.toNat]]
  rw [rhe_down (n := 8556839292003942) (by norm_num) (by norm_num)]
  norm_num [pow2, Int.toNat]

lemma qexp_sub190 : qexp (2026619832316723 / 2251799813685248) = -1 := by
  have hnum : ((2026619832316723 : ℚ) / 2251799813685248).num.natAbs
      = 2026619832316723 := by norm_num
  have hden : ((2026619832316723 : ℚ) / 2251799813685248).den
      = 2251799813685248 := by norm_num
  have t1 : Nat.log2 2026619832316723 = 50 :=
    log2_eq_of_bounds (by norm_num) (by norm_num)
  have t2 : Nat.log2 2251799813685248 = 51 :=
    log2_eq_of_bounds (by norm_num) (by norm_num)
  unfold qexp
  rw [hnum, hden, t1, t2]
  norm_num [pow2, Int.toNat]

lemma fl_sub190 : fl (2026619832316723 / 2251799813685248)
    = 2026619832316723 / 2251799813685248 := by
  rw [fl_of_pos (by norm_num), qexp_sub190]
  rw [show ((2026619832316723:ℚ) / 2251799813685248) * pow2 (52 - -1)
      = 8106479329266892 by norm_num [pow2, Int.toNat]]
  rw [rhe_down (n := 8106479329266892) (by norm_num) (by norm_num)]
  norm_num [pow2, Int.toNat]

lemma qexp_mul190 : qexp (50665495807918075 / 562949953421312) = 6 := by
  have hnum : ((50665495807918075 : ℚ) / 562949953421312).num.natAbs
      = 50665495807918075 := by norm_num
  have hden : ((50665495807918075 : ℚ) / 562949953421312).den
      = 562949953421312 := by norm_num
  have t1 : Nat.log2 50665495807918075 = 55 :=
    log2_eq_of_bounds (by norm_num) (by norm_num)
  have t2 : Nat.log2 562949953421312 = 49 :=
    log2_eq_of_bounds (by norm_num) (by norm_num)
  unfold qexp
  rw [hnum, hden, t1, t2]
  norm_num [pow2, Int.toNat]

lemma pct_f64_190 : pct_change_f64 1 (fl (19/10))
    = 6333186975989759 / 70368744177664 := by
  rw [pct_change_f64, fl_190]
  rw [show f64_sub (4278419646001971 / 2251799813685248) 1
      = 2026619832316723 / 2251799813685248 by
    rw [f64_sub, show (4278419646001971 / 2251799813685248 : ℚ) - 1
        = 2026619832316723 / 2251799813685248 by norm_num, fl_sub190]]
  rw [show f64_div (2026619832316723 / 2251799813685248) 1
      = 2026619832316723 / 2251799813685248 by
    rw [f64_div, show (2026619832316723 / 2251799813685248 : ℚ) / 1
        = 2026619832316723 / 2251799813685248 by norm_num, fl_sub190]]
  rw [f64_mul, show (2026619832316723 / 2251799813685248 : ℚ) * 100
      = 50665495807918075 / 562949953421312 by norm_num]
  rw [fl_of_pos (by norm_num), qexp_mul190]
  rw [show ((50665495807918075:ℚ) / 562949953421312) * pow2 (52 - 6)
      = 50665495807918075/8 by norm_num [pow2, Int.toNat]]
  rw [rhe_down (n := 6333186975989759) (by norm_num) (by norm_num)]
  norm_num [pow2, Int.toNat]

lemma qexp_189_100 : qexp (189/100) = 0 := by
  have hnum : ((189 : ℚ) / 100).num.natAbs = 189 := by norm_num
  have hden : ((189 : ℚ) / 100).den = 100 := by norm_num
  have t1 : Nat.log2 189 = 7 := log2_eq_of_bounds (by norm_num) (by norm_num)
  have t2 : Nat.log2 100 = 6 := log2_eq_of_bounds (by norm_num) (by norm_num)
  unfold qexp
  rw [hnum, hden, t1, t2]
  norm_num [pow2, Int.toNat]

lemma fl_189 : fl (189/100) = 8511803295730237 / 4503599627370496 := by
  rw [fl_of_pos (by norm_num), qexp_189_100]
  rw [show ((189:ℚ)/100) * pow2 (52 - 0) = 212795082393255936/25 by
    norm_num [pow2, Int.toNat]]
  rw [rhe_down (n := 8511803295730237) (by norm_num) (by norm_num)]
  norm_num [pow2, Int.toNat]

lemma qexp_sub189 : qexp (4008203668359741 / 4503599627370496) = -1 := by
  have hnum : ((4008203668359741 : ℚ) / 4503599627370496).num.natAbs
      = 4008203668359741 := by norm_num
  have hden : ((4008203668359741 : ℚ) / 4503599627370496).den
      = 4503599627370496 := by norm_num
  have t1 : Nat.log2 4008203668359741 = 51 :=
    log2_eq_of_bounds (by norm_num) (by norm_num)
  have t2 : Nat.log2 4503599627370496 = 52 :=
    log2_eq_of_bounds (by norm_num) (by norm_num)
  unfold qexp
  rw [hnum, hden, t1, t2]
  norm_num [pow2, Int.toNat]

lemma fl_sub189 : fl (4008203668359741 / 4503599627370496)
    = 4008203668359741 / 4503599627370496 := by
  rw [fl_of_pos (by norm_num), qexp_sub189]
  rw [show ((4008203668359741:ℚ) / 4503599627370496) * pow2 (52 - -1)
      = 8016407336719482 by norm_num [pow2, Int.toNat]]
  rw [rhe_down (n := 8016407336719482) (by norm_num) (by norm_num)]
  norm_num [pow2, Int.toNat]

lemma qexp_mul189 : qexp (100205091708993525 / 1125899906842624) = 6 := by
  have hnum : ((100205091708993525 : ℚ) / 1125899906842624).num.natAbs
      = 100205091708993525 := by norm_num
  have hden : ((100205091708993525 : ℚ) / 1125899906842624).den
      = 1125899906842624 := by norm_num
  have t1 : Nat.log2 100205091708993525 = 56 :=
    log2_eq_of_bounds (by norm_num) (by norm_num)
  have t2 : Nat.log2 1125899906842624 = 50 :=
    log2_eq_of_bounds (by norm_num) (by norm_num)
  unfold qexp
  rw [hnum, hden, t1, t2]
  norm_num [pow2, Int.toNat]

lemma pct_f64_189 : pct_change_f64 1 (fl (189/100))
    = 6262818231812095 / 70368744177664 := by
  rw [pct_change_f64, fl_189]
  rw [show f64_sub (8511803295730237 / 4503599627370496) 1
      = 4008203668359741 / 4503599627370496 by
    rw [f64_sub, show (8511803295730237 / 4503599627370496 : ℚ) - 1
        = 4008203668359741 / 4503599627370496 by norm_num, fl_sub189]]
  rw [show f64_div (4008203668359741 / 4503599627370496) 1
      = 4008203668359741 / 4503599627370496 by
    rw [f64_div, show (4008203668359741 / 4503599627370496 : ℚ) / 1
        = 4008203668359741 / 4503599627370496 by norm_num, fl_sub189]]
  rw [f64_mul, show (4008203668359741 / 4503599627370496 : ℚ) * 100
      = 100205091708993525 / 1125899906842624 by norm_num]
  rw [fl_of_pos (by norm_num), qexp_mul189]
  rw [show ((100205091708993525:ℚ) / 1125899906842624) * pow2 (52 - 6)
      = 100205091708993525/16 by norm_num [pow2, Int.toNat]]
  rw [rhe_down (n := 6262818231812095) (by norm_num) (by norm_num)]
  norm_num [pow2, Int.toNat]

/-! ### Quotes (src/bot.py `StockDataFetcher.get_quote`, lines 205-248)

The network part of `get_quote` (HTTP call, JSON shape, `float(...)`
parsing) is an external collaborator: it is modelled as an oracle producing
an optional `RawQuote` whose fields are the already-parsed optional floats
(`None` both on an exception and on a missing/unparsable field).  The
validation on lines 240-245 — Python truthiness of both floats (`None` and
`0.0` are falsy) plus `previous_close > 0` — is embedded as
`validateQuote`. -/

/-- The parsed `previous_close` / `close` fields, each possibly absent. -/
structure RawQuote where
  previous_close : Option ℚ
  last_price : Option ℚ

/-- A validated quote as returned from `get_quote`. -/
structure Quote where
  previous_close : ℚ
  last_price : ℚ

/-- Lines 240-245: `if previous_close and last_price and previous_close > 0`
returns the quote dict, else `None`.  A float is truthy iff nonzero. -/
def validateQuote (raw : RawQuote) : Option Quote :=
  match raw.previous_close, raw.last_price with
  | some previous_close, some last_price =>
    if previous_close ≠ 0 ∧ last_price ≠ 0 ∧ 0 < previous_close then
      some ⟨previous_close, last_price⟩
    else none
  | _, _ => none

/-! ### The daily dedup ledger (src/bot.py lines 509-511 and 586-589)

The Gist state is a JSON object mapping date strings to lists of symbol
strings; a Python 3.7+ dict is insertion-ordered, so it is embedded as an
association list. -/

/-- The persisted state: `Dict[str, List[str]]` keyed by date. -/
abbrev Ledger := List (String × List String)

/-- `state.get(d, [])`. -/
def ledgerGet (state : Ledger) (d : String) : List String :=
  ((state.find? (fun p => p.1 == d)).map Prod.snd).getD []

/-- `symbol in set(state.get(d, []))` (line 511 + line 529). -/
def is_alerted (state : Ledger) (d : String) (symbol : String) : Prop :=
  symbol ∈ ledgerGet state d

instance (state : Ledger) (d symbol : String) :
    Decidable (is_alerted state d symbol) := by
  unfold is_alerted; infer_instance

/-- Lines 587-589: `if today_str not in state: state[today_str] = []` then
`state[today_str].extend(new_alerts)` — note `extend` on a *list*, not a
set union. -/
def ledgerRecord (state : Ledger) (d : String) (new_alerts : List String) :
    Ledger :=
  if state.any (fun p => p.1 == d) then
    state.map (fun p => if p.1 == d then (p.1, p.2 ++ new_alerts) else p)
  else
    state ++ [(d, new_alerts)]

/-! ### The per-candidate loop (src/bot.py lines 527-570) -/

/-- The external collaborators and configuration visible to one run. -/
structure Env where
  fetchQuote : String → Option RawQuote
  individualTargets : String → List ℚ
  consensusTarget : String → Option ℚ
  threshold : ℚ
  haircut : ℚ

/-- One entry of `qualifying_symbols` (lines 560-568). -/
structure QualRecord where
  symbol : String
  pct_change : ℚ
  last_price : ℚ
  previous_close : ℚ
  anchor : ℚ
  target_count : ℕ
  anchor_type : String
deriving DecidableEq

/-- The body of the `for symbol in symbols` loop for one candidate:
`none` when the symbol is skipped (already alerted, no valid quote, or
below threshold), `some r` when it qualifies with record `r`. -/
def processSymbol (env : Env) (alerted : List String) (symbol : String) :
    Option QualRecord :=
  if symbol ∈ alerted then none
  else
    match (env.fetchQuote symbol).bind validateQuote with
    | none => none
    | some q =>
      let pct_change := (q.last_price - q.previous_close) / q.previous_close * 100
      if pct_change < env.threshold then none
      else
        let individual_targets := env.individualTargets symbol
        let consensus_target :=
          if individual_targets.length < 3 then env.consensusTarget symbol else none
        let r := calculate_anchor individual_targets consensus_target env.haircut
        some ⟨symbol, pct_change, q.last_price, q.previous_close, r.1,
          individual_targets.length, r.2⟩

/-- The two accumulators of the loop: `qualifying_symbols` and `new_alerts`. -/
structure LoopState where
  qualifying : List QualRecord
  new_alerts : List String
deriving DecidableEq

/-- One iteration: append to both accumulators when the candidate
qualifies, else leave them unchanged. -/
def loopStep (env : Env) (alerted : List String) (acc : LoopState)
    (symbol : String) : LoopState :=
  match processSymbol env alerted symbol with
  | some r => ⟨acc.qualifying ++ [r], acc.new_alerts ++ [symbol]⟩
  | none => acc

/-- The whole loop over the candidate list. -/
def runLoop (env : Env) (alerted : List String) (symbols : List String) :
    LoopState :=
  symbols.foldl (loopStep env alerted) ⟨[], []⟩

/-! ### Message formatting (src/bot.py `format_discord_message`) -/

/-- Fixed-point decimal rendering of a rational with `d` decimals, the
value semantics of Python's `f"{x:.df}"` (round to nearest, ties to even). -/
def fmtFixed (q : ℚ) (d : ℕ) : String :=
  let m : ℤ := roundHalfEven (|q| * ((10 ^ d : ℕ) : ℚ))
  let sign := if q < 0 then "-" else ""
  let ip := m / ((10 ^ d : ℕ) : ℤ)
  let fp := (m % ((10 ^ d : ℕ) : ℤ)).toNat
  let fpStr := toString fp
  let pad := String.mk (List.replicate (d - fpStr.length) '0')
  if d = 0 then sign ++ toString ip
  else sign ++ toString ip ++ "." ++ pad ++ fpStr

/-- One per-symbol line (lines 442-451). -/
def formatLine (haircut_rate : ℚ) (r : QualRecord) : String :=
  let anchorStr := if 0 < r.anchor then "$" ++ fmtFixed r.anchor 2 else "N/A"
  r.symbol ++ " +" ++ fmtFixed r.pct_change 1 ++ "% | last $" ++
    fmtFixed r.last_price 2 ++ " | prev $" ++ fmtFixed r.previous_close 2 ++
    " | anchor (" ++ fmtFixed (haircut_rate * 100) 1 ++ "%) " ++ anchorStr ++
    " | targets " ++ toString r.target_count ++ " (" ++ r.anchor_type ++ ")"

/-- The message's lines: the header (line 431; `str(90.0)` renders as
`"90.0"`, one decimal) followed by one line per qualifying symbol in input
order. -/
def messageLines (threshold haircut_rate : ℚ) (timeStr : String)
    (qualifying : List QualRecord) : List String :=
  ("ALERT: ≥ " ++ fmtFixed threshold 1 ++ "% movers (" ++ timeStr ++ " PT)")
    :: qualifying.map (formatLine haircut_rate)

/-- `format_discord_message`: the lines joined with newlines. -/
def format_discord_message (threshold haircut_rate : ℚ) (timeStr : String)
    (qualifying : List QualRecord) : String :=
  String.intercalate "\x0a" (messageLines threshold haircut_rate timeStr qualifying)

/-! ### The tail of `main` after the window/config gates
(src/bot.py lines 505-665) -/

/-- What one run does to the outside world: its exit code, the state passed
to `update_state` (`none` when the save collaborator is never invoked), and
the message passed to the Discord post (`none` when no publish call is
made). -/
structure RunResult where
  exitCode : ℕ
  savedState : Option Ledger
  posted : Option String
deriving DecidableEq

/-- `main` from the ledger load on: empty candidate list ⇒ silent success;
loop; empty qualifying list ⇒ silent success with no save and no post;
otherwise record `new_alerts` for today, attempt the save (`saveOk` only
affects a printed warning, lines 590-591), then post the formatted message
(exit 0 on success, 1 on a publish failure, lines 596-665). -/
def runMain (env : Env) (state : Ledger) (today : String)
    (symbols : List String) (timeStr : String) (saveOk postOk : Bool) :
    RunResult :=
  if symbols.isEmpty then ⟨0, none, none⟩
  else
    let alerted_today := ledgerGet state today
    let res := runLoop env alerted_today symbols
    if res.qualifying.isEmpty then ⟨0, none, none⟩
    else
      let state' := ledgerRecord state today res.new_alerts
      let message := format_discord_message env.threshold env.haircut timeStr
        res.qualifying
      ⟨if postOk then 0 else 1, some state', some message⟩

/-! ### Loop structure lemmas -/

lemma runLoop_go (env : Env) (alerted : List String) (symbols : List String)
    (acc : LoopState) :
    symbols.foldl (loopStep env alerted) acc =
      ⟨acc.qualifying ++ symbols.filterMap (processSymbol env alerted),
       acc.new_alerts ++
         symbols.filter (fun s => (processSymbol env alerted s).isSome)⟩ := by
  induction symbols generalizing acc with
  | nil => simp
  | cons s rest ih =>
    simp only [List.foldl_cons, List.filterMap_cons, List.filter_cons]
    cases h : processSymbol env alerted s with
    | none => rw [ih]; simp [loopStep, h]
    | some r => rw [ih]; simp [loopStep, h]

lemma runLoop_eq (env : Env) (alerted : List String) (symbols : List String) :
    runLoop env alerted symbols =
      ⟨symbols.filterMap (processSymbol env alerted),
       symbols.filter (fun s => (processSymbol env alerted s).isSome)⟩ := by
  simpa [runLoop] using runLoop_go env alerted symbols ⟨[], []⟩

lemma processSymbol_symbol {env : Env} {alerted : List String} {s : String}
    {r : QualRecord} (h : processSymbol env alerted s = some r) :
    r.symbol = s := by
  unfold processSymbol at h
  split at h
  · exact absurd h (by simp)
  · split at h
    · exact absurd h (by simp)
    · dsimp only at h
      split at h
      · exact absurd h (by simp)
      · simp only [Option.some.injEq] at h
        rw [← h]

lemma processSymbol_of_alerted {env : Env} {alerted : List String}
    {s : String} (h : s ∈ alerted) :
    processSymbol env alerted s = none := by
  simp [processSymbol, h]

/-! ### Ledger lemmas -/

lemma find?_map_record (state : Ledger) (d : String) (l : List String) :
    (state.map (fun p => if p.1 == d then (p.1, p.2 ++ l) else p)).find?
        (fun p => p.1 == d) =
      (state.find? (fun p => p.1 == d)).map (fun p => (p.1, p.2 ++ l)) := by
  induction state with
  | nil => simp
  | cons p rest ih =>
    by_cases hk : (p.1 == d) = true
    · have hd : p.1 = d := by simpa using hk
      simp [List.find?_cons, hk, hd]
    · simp only [List.map_cons, List.find?_cons, if_neg hk]
      rw [Bool.not_eq_true] at hk
      simp only [hk, ih]

lemma ledgerGet_record (state : Ledger) (d : String) (l : List String) :
    ledgerGet (ledgerRecord state d l) d = ledgerGet state d ++ l := by
  unfold ledgerRecord
  split
  case isTrue h =>
    unfold ledgerGet
    rw [find?_map_record]
    obtain ⟨p, hp, hpd⟩ := List.any_eq_true.mp h
    cases hfind : state.find? (fun p => p.1 == d) with
    | none =>
      rw [List.find?_eq_none] at hfind
      exact absurd hpd (hfind p hp)
    | some q => simp
  case isFalse h =>
    unfold ledgerGet
    have hfind : state.find? (fun p => p.1 == d) = none := by
      rw [List.find?_eq_none]
      intro p hp
      intro hpd
      exact h (List.any_eq_true.mpr ⟨p, hp, hpd⟩)
    rw [List.find?_append, hfind]
    simp

/-! ### C1: the anchor calculator matches the spec's reference algorithm -/

/-- C1: for every list of targets, optional consensus and haircut_rate in
[0,1], `calculate_anchor` equals the spec's three-case reference algorithm
(trimmed mean of the sorted list with first and last removed, consensus
fallback, or `(0, "none")`), and on the spec's concrete example
`calculate_anchor [10,12,15,18,20] none 0.125` returns
`(13.125, "trimmed")` (13.125 = 105/8). -/
theorem calculate_anchor_matches_spec :
    (∀ (targets : List ℚ) (consensus : Option ℚ) (haircut_rate : ℚ),
      0 ≤ haircut_rate → haircut_rate ≤ 1 →
      calculate_anchor targets consensus haircut_rate =
        anchor_spec targets consensus haircut_rate) ∧
    calculate_anchor [10, 12, 15, 18, 20] none (1/8) = (105/8, "trimmed") := by
  constructor
  · intro targets consensus haircut_rate _ _
    exact calculate_anchor_eq_spec targets consensus haircut_rate
  · norm_num [calculate_anchor, List.insertionSort, List.orderedInsert]

/-- Witness for C1 at a concrete input. -/
theorem calculate_anchor_matches_spec_witness :
    (0:ℚ) ≤ 1/8 ∧ (1:ℚ)/8 ≤ 1 ∧
    calculate_anchor [10, 12] (some 15) (1/8) =
      anchor_spec [10, 12] (some 15) (1/8) :=
  ⟨by norm_num, by norm_num,
    calculate_anchor_matches_spec.1 [10, 12] (some 15) (1/8)
      (by norm_num) (by norm_num)⟩

/-! ### C8: `value == 0` iff `method == "none"` -/

/-- C8 as stated is false: `haircut_rate = 1` lies in `[0,1]`, the targets
`[1,2,3]` are positive, yet the anchor value is `0` while the method is
`"trimmed"`, not `"none"`. -/
theorem anchor_zero_iff_none_counterexample :
    (∀ t ∈ [(1:ℚ), 2, 3], 0 < t) ∧ ((0:ℚ) ≤ 1 ∧ (1:ℚ) ≤ 1) ∧
    (calculate_anchor [1, 2, 3] none 1).1 = 0 ∧
    (calculate_anchor [1, 2, 3] none 1).2 = "trimmed" ∧
    ¬ ((calculate_anchor [1, 2, 3] none 1).1 = 0 ↔
        (calculate_anchor [1, 2, 3] none 1).2 = "none") := by
  have h1 : (calculate_anchor [1, 2, 3] none 1).1 = 0 := by
    norm_num [calculate_anchor, List.insertionSort, List.orderedInsert]
  have h2 : (calculate_anchor [1, 2, 3] none 1).2 = "trimmed" := by
    norm_num [calculate_anchor, List.insertionSort, List.orderedInsert]
  refine ⟨by norm_num, ⟨by norm_num, le_refl 1⟩, h1, h2, ?_⟩
  intro hiff
  exact absurd (h2 ▸ hiff.mp h1) (by decide)

lemma trimmed_sublist (targets : List ℚ) :
    List.Sublist (((targets.insertionSort (· ≤ ·)).drop 1).dropLast)
      (targets.insertionSort (· ≤ ·)) :=
  (List.dropLast_sublist _).trans (List.drop_sublist 1 _)

/-- C8 amended: for positive targets, optional positive consensus and
haircut_rate in [0,1) (excluding the degenerate total haircut 1), the
anchor value is 0 iff the method is "none". -/
theorem anchor_zero_iff_none (targets : List ℚ) (consensus : Option ℚ)
    (haircut_rate : ℚ) (hpos : ∀ t ∈ targets, 0 < t)
    (hcons : ∀ c, consensus = some c → 0 < c)
    (h0 : 0 ≤ haircut_rate) (h1 : haircut_rate < 1) :
    (calculate_anchor targets consensus haircut_rate).1 = 0 ↔
      (calculate_anchor targets consensus haircut_rate).2 = "none" := by
  have hhc : 0 < 1 - haircut_rate := by linarith
  unfold calculate_anchor
  split
  case isTrue h3 =>
    have hlen : (((targets.insertionSort (· ≤ ·)).drop 1).dropLast).length =
        targets.length - 2 := trimmed_length targets
    have hne : (((targets.insertionSort (· ≤ ·)).drop 1).dropLast) ≠ [] := by
      intro hnil
      rw [hnil] at hlen
      simp at hlen
      omega
    have hmem : ∀ t ∈ ((targets.insertionSort (· ≤ ·)).drop 1).dropLast,
        0 < t := by
      intro t ht
      exact hpos t
        (((List.perm_insertionSort (α := ℚ) (· ≤ ·) targets).mem_iff).mp
          ((trimmed_sublist targets).subset ht))
    have hsum : 0 < (((targets.insertionSort (· ≤ ·)).drop 1).dropLast).sum :=
      List.sum_pos _ hmem hne
    have hlenpos : (0:ℚ) <
        ((((targets.insertionSort (· ≤ ·)).drop 1).dropLast).length : ℚ) := by
      have : 0 < (((targets.insertionSort (· ≤ ·)).drop 1).dropLast).length :=
        List.length_pos.mpr hne
      exact_mod_cast this
    have hval : 0 < (((targets.insertionSort (· ≤ ·)).drop 1).dropLast).sum /
        ((((targets.insertionSort (· ≤ ·)).drop 1).dropLast).length : ℚ) *
        (1 - haircut_rate) := by positivity
    simp only []
    constructor
    · intro hv
      exact absurd hv (by exact hval.ne')
    · intro hs
      exact absurd hs (by decide)
  case isFalse h3 =>
    cases hc : consensus with
    | none => simp
    | some c =>
      have hcpos : 0 < c := hcons c hc
      have : 0 < c * (1 - haircut_rate) := by positivity
      simp only []
      constructor
      · intro hv
        exact absurd hv this.ne'
      · intro hs
        exact absurd hs (by decide)

/-- Witness for the amended C8 at a concrete input. -/
theorem anchor_zero_iff_none_witness :
    (calculate_anchor [5, 6, 7] none (1/8)).1 = 0 ↔
      (calculate_anchor [5, 6, 7] none (1/8)).2 = "none" :=
  anchor_zero_iff_none [5, 6, 7] none (1/8) (by norm_num)
    (by intro c hc; cases hc) (by norm_num) (by norm_num)

/-! ### C3: ledger recording idempotence -/

/-- C3 as stated is false: the ledger stores a *list* per date and `record`
is `extend`, so recording the same symbol twice for the same date yields a
different ledger (with a duplicated entry), not the same one. -/
theorem record_idempotent_counterexample :
    ledgerRecord (ledgerRecord [] "2026-02-01" ["AAPL"]) "2026-02-01" ["AAPL"]
        ≠ ledgerRecord [] "2026-02-01" ["AAPL"] ∧
    ledgerGet (ledgerRecord (ledgerRecord [] "2026-02-01" ["AAPL"])
        "2026-02-01" ["AAPL"]) "2026-02-01" = ["AAPL", "AAPL"] ∧
    ledgerGet (ledgerRecord [] "2026-02-01" ["AAPL"]) "2026-02-01"
        = ["AAPL"] := by
  refine ⟨by decide, by decide, by decide⟩

/-- C3 amended: recording the same symbols twice for the same date yields
the same *membership set* as recording them once — `is_alerted` cannot
tell the two ledgers apart — although the stored list gains duplicates. -/
theorem record_twice_same_membership (state : Ledger) (d : String)
    (syms : List String) (x : String) :
    is_alerted (ledgerRecord (ledgerRecord state d syms) d syms) d x ↔
      is_alerted (ledgerRecord state d syms) d x := by
  unfold is_alerted
  rw [ledgerGet_record, ledgerGet_record]
  simp only [List.mem_append]
  tauto

/-! ### Concrete environments used by witnesses -/

/-- An environment whose every quote lookup fails. -/
def envNone : Env :=
  ⟨fun _ => none, fun _ => [], fun _ => none, 90, 1/8⟩

/-- An environment whose every quote moves from 1 to 2 (+100%), with no
analyst targets. -/
def envQ : Env :=
  ⟨fun _ => some ⟨some 1, some 2⟩, fun _ => [], fun _ => none, 90, 1/8⟩

lemma processSymbol_envQ (s : String) :
    processSymbol envQ [] s = some ⟨s, 100, 2, 1, 0, 0, "none"⟩ := by
  norm_num [processSymbol, envQ, validateQuote, calculate_anchor]

/-! ### C4: already-alerted symbols are excluded -/

/-- C4: a symbol that is a member of the loaded ledger's set for today is
absent from the run's qualifying list — and from `new_alerts` — regardless
of its price move (the posted message is built only from the qualifying
list). -/
theorem alerted_symbol_excluded (env : Env) (state : Ledger)
    (today s : String) (symbols : List String) (timeStr : String)
    (saveOk postOk : Bool) (h : is_alerted state today s) :
    (∀ r ∈ (runLoop env (ledgerGet state today) symbols).qualifying,
      r.symbol ≠ s) ∧
    s ∉ (runLoop env (ledgerGet state today) symbols).new_alerts ∧
    (∀ msg, (runMain env state today symbols timeStr saveOk postOk).posted
      = some msg →
      msg = format_discord_message env.threshold env.haircut timeStr
        (runLoop env (ledgerGet state today) symbols).qualifying) := by
  refine ⟨?_, ?_, ?_⟩
  · rw [runLoop_eq]
    intro r hr hrs
    simp only [List.mem_filterMap] at hr
    obtain ⟨t, ht, hp⟩ := hr
    have hts : t = s := by rw [← processSymbol_symbol hp]; exact hrs
    subst hts
    rw [processSymbol_of_alerted h] at hp
    cases hp
  · rw [runLoop_eq]
    intro hmem
    simp only [List.mem_filter] at hmem
    rw [processSymbol_of_alerted h] at hmem
    simp at hmem
  · intro msg hmsg
    unfold runMain at hmsg
    split at hmsg
    · cases hmsg
    · dsimp only at hmsg
      split at hmsg
      · cases hmsg
      · simp only [Option.some.injEq] at hmsg
        rw [← hmsg]

/-- Witness for C4. -/
theorem alerted_symbol_excluded_witness :
    is_alerted [("2026-02-01", ["AAPL"])] "2026-02-01" "AAPL" ∧
    ((∀ r ∈ (runLoop envQ (ledgerGet [("2026-02-01", ["AAPL"])] "2026-02-01")
        ["AAPL"]).qualifying, r.symbol ≠ "AAPL") ∧
      "AAPL" ∉ (runLoop envQ (ledgerGet [("2026-02-01", ["AAPL"])]
        "2026-02-01") ["AAPL"]).new_alerts ∧
      (∀ msg, (runMain envQ [("2026-02-01", ["AAPL"])] "2026-02-01" ["AAPL"]
          "10:35" true true).posted = some msg →
        msg = format_discord_message envQ.threshold envQ.haircut "10:35"
          (runLoop envQ (ledgerGet [("2026-02-01", ["AAPL"])] "2026-02-01")
            ["AAPL"]).qualifying)) :=
  ⟨by decide,
    alerted_symbol_excluded envQ [("2026-02-01", ["AAPL"])] "2026-02-01"
      "AAPL" ["AAPL"] "10:35" true true (by decide)⟩

/-! ### C5: an empty qualifying list is a no-op -/

/-- C5: if the qualifying list is empty at the end of the loop, the run
exits 0 with no save-collaborator call and no publish call, so the
persisted state is untouched. -/
theorem empty_qualifying_silent_noop (env : Env) (state : Ledger)
    (today : String) (symbols : List String) (timeStr : String)
    (saveOk postOk : Bool)
    (h : (runLoop env (ledgerGet state today) symbols).qualifying = []) :
    runMain env state today symbols timeStr saveOk postOk =
      ⟨0, none, none⟩ := by
  unfold runMain
  split
  · rfl
  · dsimp only
    rw [h]
    simp

/-- Witness for C5. -/
theorem empty_qualifying_silent_noop_witness :
    runMain envNone [] "2026-02-01" ["AAPL"] "10:35" true true =
      ⟨0, none, none⟩ :=
  empty_qualifying_silent_noop envNone [] "2026-02-01" ["AAPL"] "10:35"
    true true (by rfl)

/-! ### C7: a failed ledger save does not abort the run -/

/-- C7: with a non-empty qualifying list, a failed ledger save does not
abort: the publish step still receives exactly the message formatted from
the qualifying list, and the run's observable result is identical to the
successful-save case. -/
theorem save_failure_still_publishes (env : Env) (state : Ledger)
    (today : String) (symbols : List String) (timeStr : String)
    (postOk : Bool)
    (h : (runLoop env (ledgerGet state today) symbols).qualifying ≠ []) :
    (runMain env state today symbols timeStr false postOk).posted =
      some (format_discord_message env.threshold env.haircut timeStr
        (runLoop env (ledgerGet state today) symbols).qualifying) ∧
    runMain env state today symbols timeStr false postOk =
      runMain env state today symbols timeStr true postOk := by
  have hsymne : symbols ≠ [] := by
    intro hnil
    subst hnil
    exact h rfl
  have h1 : symbols.isEmpty = false := by
    cases symbols with
    | nil => exact absurd rfl hsymne
    | cons a l => rfl
  have h2 : (runLoop env (ledgerGet state today) symbols).qualifying.isEmpty
      = false := by
    cases hq : (runLoop env (ledgerGet state today) symbols).qualifying with
    | nil => exact absurd hq h
    | cons a l => rfl
  constructor
  · unfold runMain
    rw [h1]
    dsimp only
    rw [h2]
    simp
  · rfl

/-- Witness for C7. -/
theorem save_failure_still_publishes_witness :
    ((runMain envQ [] "2026-02-01" ["AAPL"] "10:35" false true).posted =
      some (format_discord_message envQ.threshold envQ.haircut "10:35"
        (runLoop envQ (ledgerGet [] "2026-02-01") ["AAPL"]).qualifying) ∧
    runMain envQ [] "2026-02-01" ["AAPL"] "10:35" false true =
      runMain envQ [] "2026-02-01" ["AAPL"] "10:35" true true) :=
  save_failure_still_publishes envQ [] "2026-02-01" ["AAPL"] "10:35" true
    (by rw [runLoop_eq]; simp [ledgerGet, processSymbol_envQ])

/-! ### C10: the percentage-change division is always well-defined -/

lemma validateQuote_pos {raw : RawQuote} {q : Quote}
    (h : validateQuote raw = some q) :
    0 < q.previous_close ∧ q.last_price ≠ 0 := by
  obtain ⟨pc?, lp?⟩ := raw
  cases pc? with
  | none => simp [validateQuote] at h
  | some pc =>
    cases lp? with
    | none => simp [validateQuote] at h
    | some lp =>
      unfold validateQuote at h
      dsimp only at h
      split at h
      case isTrue hc =>
        simp only [Option.some.injEq] at h
        rw [← h]
        exact ⟨hc.2.2, hc.2.1⟩
      case isFalse hc => cases h

/-- C10: `get_quote` validation only accepts quotes whose fields are
nonzero and whose `previous_close` is strictly positive (a `0.0`
`last_price` is rejected even with a positive `previous_close`), so every
record the loop produces has a strictly positive divisor and its
`pct_change` is the well-defined `(last - prev) / prev * 100`. -/
theorem pct_divisor_positive :
    (∀ (raw : RawQuote) (q : Quote), validateQuote raw = some q →
      0 < q.previous_close ∧ q.last_price ≠ 0) ∧
    (∀ pc : ℚ, validateQuote ⟨some pc, some 0⟩ = none) ∧
    (∀ (env : Env) (alerted : List String) (s : String) (r : QualRecord),
      processSymbol env alerted s = some r →
      0 < r.previous_close ∧
      r.pct_change =
        (r.last_price - r.previous_close) / r.previous_close * 100) := by
  refine ⟨fun raw q h => validateQuote_pos h, ?_, ?_⟩
  · intro pc
    simp [validateQuote]
  · intro env alerted s r h
    unfold processSymbol at h
    split at h
    · cases h
    · split at h
      · cases h
      case _ q hq =>
        dsimp only at h
        split at h
        · cases h
        · simp only [Option.some.injEq] at h
          obtain ⟨raw, _, hraw⟩ := Option.bind_eq_some.mp hq
          have hqpos := (validateQuote_pos hraw).1
          rw [← h]
          exact ⟨hqpos, rfl⟩

/-- Witness for C10. -/
theorem pct_divisor_positive_witness :
    0 < (Quote.mk 1 2).previous_close ∧ (Quote.mk 1 2).last_price ≠ 0 :=
  pct_divisor_positive.1 ⟨some 1, some 2⟩ ⟨1, 2⟩
    (by norm_num [validateQuote])

/-! ### C6: a per-symbol quote fault is isolated to that symbol -/

/-- C6: replacing one symbol's quote lookup by a fault (or by a quote that
fails validation, e.g. non-positive `previous_close`) skips exactly that
symbol: it never aborts the batch, every other candidate's outcome is
bit-for-bit unchanged, and the loop's outputs merely lose the faulty
symbol's entries. -/
theorem quote_fault_isolated (env : Env) (fq : String → Option RawQuote)
    (s : String) (alerted symbols : List String)
    (hagree : ∀ t, t ≠ s → fq t = env.fetchQuote t)
    (hfault : (fq s).bind validateQuote = none) :
    processSymbol { env with fetchQuote := fq } alerted s = none ∧
    (∀ t, t ≠ s → processSymbol { env with fetchQuote := fq } alerted t =
      processSymbol env alerted t) ∧
    (runLoop { env with fetchQuote := fq } alerted symbols).qualifying =
      (runLoop env alerted symbols).qualifying.filter
        (fun r => r.symbol != s) ∧
    (runLoop { env with fetchQuote := fq } alerted symbols).new_alerts =
      (runLoop env alerted symbols).new_alerts.filter (fun t => t != s) := by
  have hps : processSymbol { env with fetchQuote := fq } alerted s = none := by
    unfold processSymbol
    dsimp only
    rw [hfault]
    simp
  have hpt : ∀ t, t ≠ s →
      processSymbol { env with fetchQuote := fq } alerted t =
        processSymbol env alerted t := by
    intro t ht
    unfold processSymbol
    dsimp only
    rw [hagree t ht]
  refine ⟨hps, hpt, ?_, ?_⟩
  · rw [runLoop_eq, runLoop_eq]
    dsimp only
    induction symbols with
    | nil => simp
    | cons t rest ih =>
      rw [List.filterMap_cons, List.filterMap_cons]
      by_cases hts : t = s
      · subst hts
        rw [hps]
        cases h : processSymbol env alerted t with
        | none => simpa using ih
        | some r =>
          have hr : r.symbol = t := processSymbol_symbol h
          simp only [List.filter_cons, hr, bne_self_eq_false, if_false,
            Bool.false_eq_true]
          exact ih
      · rw [hpt t hts]
        cases h : processSymbol env alerted t with
        | none => simpa using ih
        | some r =>
          have hr : r.symbol = t := processSymbol_symbol h
          have hb : (r.symbol != s) = true := by
            simp [hr, hts]
          simp only [List.filter_cons, hb, if_true]
          rw [ih]
  · rw [runLoop_eq, runLoop_eq]
    dsimp only
    induction symbols with
    | nil => simp
    | cons t rest ih =>
      rw [List.filter_cons, List.filter_cons]
      by_cases hts : t = s
      · subst hts
        rw [hps]
        cases h : processSymbol env alerted t with
        | none => simpa using ih
        | some r =>
          simp only [Option.isSome_some, if_true, List.filter_cons,
            bne_self_eq_false, Bool.false_eq_true, if_false]
          simpa using ih
      · rw [hpt t hts]
        have hb : (t != s) = true := by simp [hts]
        cases h : processSymbol env alerted t with
        | none => simpa using ih
        | some r =>
          simp only [Option.isSome_some, if_true, List.filter_cons, hb]
          rw [ih]

/-- Witness for C6: in `envQ` every symbol qualifies; killing AAPL's
quote only removes AAPL. -/
theorem quote_fault_isolated_witness :
    (processSymbol { envQ with fetchQuote :=
        fun t => if t = "AAPL" then none else envQ.fetchQuote t } [] "AAPL"
      = none ∧
    (∀ t, t ≠ "AAPL" →
      processSymbol { envQ with fetchQuote :=
        fun t => if t = "AAPL" then none else envQ.fetchQuote t } [] t =
      processSymbol envQ [] t) ∧
    (runLoop { envQ with fetchQuote :=
        fun t => if t = "AAPL" then none else envQ.fetchQuote t } []
      ["AAPL", "MSFT"]).qualifying =
      (runLoop envQ [] ["AAPL", "MSFT"]).qualifying.filter
        (fun r => r.symbol != "AAPL") ∧
    (runLoop { envQ with fetchQuote :=
        fun t => if t = "AAPL" then none else envQ.fetchQuote t } []
      ["AAPL", "MSFT"]).new_alerts =
      (runLoop envQ [] ["AAPL", "MSFT"]).new_alerts.filter
        (fun t => t != "AAPL")) :=
  quote_fault_isolated envQ
    (fun t => if t = "AAPL" then none else envQ.fetchQuote t) "AAPL" []
    ["AAPL", "MSFT"] (fun t ht => if_neg ht) (by simp)

/-! ### C9: the dedup set is not updated during the loop -/

lemma count_qualifying (env : Env) (alerted : List String)
    (symbols : List String) (s : String)
    (hq : (processSymbol env alerted s).isSome = true) :
    ((symbols.filterMap (processSymbol env alerted)).map
      QualRecord.symbol).count s = symbols.count s := by
  induction symbols with
  | nil => simp
  | cons t rest ih =>
    rw [List.filterMap_cons]
    by_cases hts : t = s
    · subst hts
      obtain ⟨r, hr⟩ := Option.isSome_iff_exists.mp hq
      rw [hr]
      simp [List.count_cons, processSymbol_symbol hr, ih]
    · cases h : processSymbol env alerted t with
      | none => simp [List.count_cons, hts, ih]
      | some r =>
        have hrs : r.symbol = t := processSymbol_symbol h
        simp [List.count_cons, hrs, hts, ih]

/-- C9: the already-alerted set used for dedup is fixed at ledger-load time
and not updated inside the loop: a symbol occurring twice among the
candidates, absent from today's loaded set, and qualifying, appears twice
in the qualifying list, twice in `new_alerts`, and twice in the list
recorded into the ledger for today. -/
theorem duplicate_candidate_alerted_twice (env : Env) (state : Ledger)
    (today s : String) (symbols : List String)
    (hc : symbols.count s = 2)
    (hnot : ¬ is_alerted state today s)
    (hq : (processSymbol env (ledgerGet state today) s).isSome = true) :
    ((runLoop env (ledgerGet state today) symbols).qualifying.map
      QualRecord.symbol).count s = 2 ∧
    (runLoop env (ledgerGet state today) symbols).new_alerts.count s = 2 ∧
    (ledgerGet (ledgerRecord state today
      (runLoop env (ledgerGet state today) symbols).new_alerts)
      today).count s = 2 := by
  have hna : (runLoop env (ledgerGet state today) symbols).new_alerts.count s
      = 2 := by
    rw [runLoop_eq]
    dsimp only
    rw [List.count_filter
      (p := fun t => (processSymbol env (ledgerGet state today) t).isSome)
      (a := s) hq, hc]
  refine ⟨?_, hna, ?_⟩
  · rw [runLoop_eq]
    dsimp only
    rw [count_qualifying env _ symbols s hq, hc]
  · rw [ledgerGet_record, List.count_append, hna,
      List.count_eq_zero_of_not_mem hnot]

/-- Witness for C9. -/
theorem duplicate_candidate_alerted_twice_witness :
    (((runLoop envQ (ledgerGet [] "2026-02-01") ["AAPL", "AAPL"]).qualifying.map
      QualRecord.symbol).count "AAPL" = 2 ∧
    (runLoop envQ (ledgerGet [] "2026-02-01")
      ["AAPL", "AAPL"]).new_alerts.count "AAPL" = 2 ∧
    (ledgerGet (ledgerRecord [] "2026-02-01"
      (runLoop envQ (ledgerGet [] "2026-02-01") ["AAPL", "AAPL"]).new_alerts)
      "2026-02-01").count "AAPL" = 2) :=
  duplicate_candidate_alerted_twice envQ [] "2026-02-01" "AAPL"
    ["AAPL", "AAPL"] (by decide) (by decide)
    (by rw [show ledgerGet [] "2026-02-01" = [] from rfl, processSymbol_envQ]; rfl)

/-! ### C2: the threshold boundary under the code's binary64 arithmetic -/

/-- C2 evaluated at the boundary input, under the binary64 arithmetic the
code actually uses: with `previous_close = 1.00` and
`last_price = float("1.90")` (the double nearest 1.9, `fl (19/10)`), the
computed `pct_change` is `6333186975989759/2^46 = 89.99999999999999…`,
strictly below and not equal to 90, so the strict `pct_change < 90.0` test
rejects the symbol; `last_price = float("1.89")` likewise yields
`88.99999999999999…`, not 89.0.  Under exact arithmetic the first input
would give exactly 90 and qualify, which is what the spec (and the repo's
own tests, which add a `1e-6` tolerance the production comparison lacks)
expects. -/
theorem threshold_boundary_float_eval :
    pct_change_f64 1 (fl (19/10)) = 6333186975989759 / 70368744177664 ∧
    pct_change_f64 1 (fl (19/10)) < 90 ∧
    pct_change_f64 1 (fl (19/10)) ≠ 90 ∧
    pct_change_f64 1 (fl (189/100)) = 6262818231812095 / 70368744177664 ∧
    pct_change_f64 1 (fl (189/100)) < 90 ∧
    ((19:ℚ)/10 - 1) / 1 * 100 = 90 := by
  refine ⟨pct_f64_190, ?_, ?_, pct_f64_189, ?_, by norm_num⟩
  · rw [pct_f64_190]; norm_num
  · rw [pct_f64_190]; norm_num
  · rw [pct_f64_189]; norm_num

end StockBot
